import Mathlib

/-!
Verification of the poireau sampling allocator.

This file shallowly embeds the C sources of the library:

* `src/sample.h` / `src/sample.c` — the per-thread Poisson sampler
  (`sample_request`, `sample_request_reset`, the xoshiro256+ generator,
  the sample-period constructor);
* `src/tracked_alloc.h` / `src/tracked_alloc.c` — the tracked-allocation
  registry (`tracked_alloc_p`, `tracked_alloc_get`, `tracked_alloc_info`,
  `tracked_alloc_put`);
* `src/shim.c` — the interception shim (`malloc`/`realloc` dispatch,
  `sampled_realloc`, `safe_copy`).

Machine integers (`uint64_t`, `size_t`, both 64-bit here) are modelled as
`Nat` with explicit `% 2^64` where the C code can wrap; the boundedness
hypothesis `… < U64` stands for the values being representable.  Assertion
failures (`assert` aborts the process) are modelled as `Option.none`.
Kernel services (`mmap`, `getrandom`, `malloc_usable_size`, the underlying
allocator) are inputs of the embedded functions.  Unbounded C loops are
given explicit fuel and return `none` when the fuel runs out.
-/

/-- Word size of `uint64_t` / `size_t` on the target (2^64). -/
def U64 : Nat := 2 ^ 64

/-- The four-word xoshiro256+ state, `uint64_t s[4]` in `struct sample_state`. -/
structure RngState where
  s0 : Nat
  s1 : Nat
  s2 : Nat
  s3 : Nat
deriving DecidableEq

/-- The all-zero RNG state: the "unseeded" state of a fresh thread. -/
def zeroRng : RngState := ⟨0, 0, 0, 0⟩

/-- All four words of the RNG state are representable `uint64_t` values. -/
def RngState.Bounded (st : RngState) : Prop :=
  st.s0 < U64 ∧ st.s1 < U64 ∧ st.s2 < U64 ∧ st.s3 < U64

instance (st : RngState) : Decidable st.Bounded := by
  unfold RngState.Bounded; infer_instance

/-- Per-thread sampler state, `struct sample_state` from `sample.h`:
the RNG words plus the `bytes_until_next_sample` debt counter. -/
structure sample_state where
  rng : RngState
  bytes_until_next_sample : Nat
deriving DecidableEq

/-- The C `rotl` helper from `sample.c`: `(x << k) | (x >> (64 - k))` on
`uint64_t`, so the left shift wraps modulo 2^64. -/
def rotl (x k : Nat) : Nat :=
  ((x <<< k) % U64) ||| (x >>> (64 - k))

/-- The xoshiro256+ step `xoshiro_next` from `sample.c`.  Returns the top
52 bits of `s0 + s3` (shift = 64 - 52 = 12) together with the updated
state; all word arithmetic is on `uint64_t`. -/
def xoshiro_next (st : RngState) : Nat × RngState :=
  let result := (st.s0 + st.s3) % U64
  let t := (st.s1 <<< 17) % U64
  let s2 := st.s2 ^^^ st.s0
  let s3 := st.s3 ^^^ st.s1
  let s1 := st.s1 ^^^ s2
  let s0 := st.s0 ^^^ s3
  let s2' := s2 ^^^ t
  let s3' := rotl s3 45
  (result >>> 12, ⟨s0, s1, s2', s3'⟩)

/-- The all-words-zero test performed by `maybe_initialize_xoshiro`. -/
def rng_is_zero (st : RngState) : Bool :=
  decide (st.s0 = 0) && decide (st.s1 = 0) && decide (st.s2 = 0) && decide (st.s3 = 0)

/-- The `maybe_initialize_xoshiro` function from `sample.c`: if every word
of the state is zero, fill the state from the OS entropy source and
report `true`; otherwise leave it alone and report `false`.  The words
`getrandom` would write are the explicit input `seed`. -/
def maybe_initialize_xoshiro (seed : RngState) (st : RngState) : Bool × RngState :=
  if rng_is_zero st then (true, seed) else (false, st)

/-- The `sample_uniform_slow_path` retry loop from `sample.c`:
`do { if (maybe_initialize_xoshiro(state)) *newly = true; ret = xoshiro_next(state); }
while (ret == 0)`.  The loop is unbounded in C, so it takes fuel and
returns `none` when the fuel runs out.  Result: the nonzero 52-bit draw,
the updated state, and the accumulated `newly_initialized` flag. -/
def sample_uniform_slow_path (seed : RngState) :
    Nat → RngState → Bool → Option (Nat × RngState × Bool)
  | 0, _, _ => none
  | fuel + 1, st, newly =>
    let p := maybe_initialize_xoshiro seed st
    let n := newly || p.1
    let q := xoshiro_next p.2
    if q.1 = 0 then sample_uniform_slow_path seed fuel q.2 n
    else some (q.1, q.2, n)

/-- The `sample_uniform` function from `sample.c`, at the integer level:
it draws 52 bits with `xoshiro_next` and falls back to the slow path when
they are zero.  The C function then returns the double
`(1.0 with mantissa bits) - 1.0 = bits * 2^-52`, which is in bijection
with the returned integer `bits`, so the model returns `bits` itself
(plus the state and the `newly_initialized` flag). -/
def sample_uniform (seed : RngState) (fuel : Nat) (st : RngState) :
    Option (Nat × RngState × Bool) :=
  let p := xoshiro_next st
  if p.1 = 0 then sample_uniform_slow_path seed fuel p.2 false
  else some (p.1, p.2, false)

/-- The `sample_request_reset` loop from `sample.c`:
draw `-period * log(uniform)` , store it (truncated to `size_t`) in
`bytes_until_next_sample`, return `true` immediately if the RNG was newly
initialized, and otherwise redraw while the stored debt is zero.
The floating-point conversion from the 52-bit uniform mantissa to the
truncated `size_t` debt (`-period * log(bits * 2^-52)` cast to `size_t`)
is not exactly representable here and is abstracted as the input
`expDraw`; everything else follows the C control flow.  The outer
`do … while` is unbounded, hence the fuel. -/
def sample_request_reset (seed : RngState) (expDraw : Nat → Nat) (innerFuel : Nat) :
    Nat → sample_state → Option (Bool × sample_state)
  | 0, _ => none
  | fuel + 1, st =>
    match sample_uniform seed innerFuel st.rng with
    | none => none
    | some (bits, s', newly) =>
      let st' : sample_state := ⟨s', expDraw bits⟩
      if newly then some (true, st')
      else if st'.bytes_until_next_sample = 0 then
        sample_request_reset seed expDraw innerFuel fuel st'
      else some (false, st')

/-- The portable branch of `sample_request` from `sample.h`:
`remaining = current - request` on `uint64_t` (wrapping), the wrapped
result is stored back unconditionally, and the request is sampled iff
`request >= current`. -/
def sample_request (st : sample_state) (request : Nat) : Bool × sample_state :=
  let current := st.bytes_until_next_sample
  let remaining := (current + (U64 - request % U64)) % U64
  (decide (request ≥ current), ⟨st.rng, remaining⟩)

/-- ADDRESS_SPACE_MAX from `tracked_alloc.h`: 2^47. -/
def ADDRESS_SPACE_MAX : Nat := 2 ^ 47

/-- TRACKING_ALIGNMENT from `tracked_alloc.h`: 2^30 (1 GiB). -/
def TRACKING_ALIGNMENT : Nat := 2 ^ 30

/-- The process-wide registry state: `tracked_alloc_table` (one address
word per 1 GiB slot) and the parallel `info_table` split into its `id`
and `size` columns, all from `tracked_alloc.c`. -/
structure Registry where
  table : Nat → Nat
  ids : Nat → Nat
  sizes : Nat → Nat

/-- Pointwise update of one slot of a registry column. -/
def updAt (f : Nat → Nat) (i v : Nat) : Nat → Nat :=
  fun j => if j = i then v else f j

/-- The `tracked_alloc_p` membership test from `tracked_alloc.h`:
reject misaligned pointers before touching the table, then reject null,
then compare the slot entry with the pointer. -/
def tracked_alloc_p (table : Nat → Nat) (ptr : Nat) : Bool :=
  if ptr % TRACKING_ALIGNMENT ≠ 0 then false
  else if ptr = 0 then false
  else decide (ptr = table (ptr / TRACKING_ALIGNMENT))

/-- The `struct tracked_alloc_info` metadata record. -/
structure alloc_info where
  id : Nat
  size : Nat
deriving DecidableEq

/-- The `tracked_alloc_info` lookup from `tracked_alloc.c`.  The C code
asserts that the slot entry equals the pointer and aborts otherwise;
abortion is `none`. -/
def tracked_alloc_info (reg : Registry) (ptr : Nat) : Option alloc_info :=
  let index := ptr / TRACKING_ALIGNMENT
  if reg.table index = ptr then some ⟨reg.ids index, reg.sizes index⟩ else none

/-- The `tracked_alloc_put` release from `tracked_alloc.c`: load the slot
entry, look the info up (asserting the entry matches the pointer), assert
the entry matches and the id is nonzero, then clear `id`, `size` and the
address entry.  In this sequential model the final exchange necessarily
returns the value loaded at entry, so the last C assert cannot fire
separately.  The final `munmap` releases kernel state outside the model. -/
def tracked_alloc_put (reg : Registry) (ptr : Nat) : Option Registry :=
  let index := ptr / TRACKING_ALIGNMENT
  let prev := reg.table index
  match tracked_alloc_info reg ptr with
  | none => none
  | some info =>
    if prev ≠ ptr then none
    else if info.id = 0 then none
    else some { table := updAt reg.table index 0,
                ids := updAt reg.ids index 0,
                sizes := updAt reg.sizes index 0 }

/-- The `tracked_alloc_get` allocation from `tracked_alloc.c`.  The fresh
id from the atomic counter and the result of `aligned_mmap` (`none` on
mapping failure) are inputs.  On success the slot's `id` and `size` are
published and the address entry is exchanged in; the C code asserts the
previous entry was zero and aborts otherwise (`none`). -/
def tracked_alloc_get (reg : Registry) (alloc : Option Nat) (id request : Nat) :
    Option (Option Nat × Registry) :=
  match alloc with
  | none => some (none, reg)
  | some a =>
    let index := a / TRACKING_ALIGNMENT
    let reg' : Registry := { table := updAt reg.table index a,
                             ids := updAt reg.ids index id,
                             sizes := updAt reg.sizes index request }
    if reg.table index = 0 then some (some a, reg') else none

/-- PAGE_SIZE from `shim.c` / `tracked_alloc.c`. -/
def PAGE_SIZE : Nat := 4096

/-- Whether every byte of `[src, src + len)` lies in a readable page;
`readable` is indexed by page number. -/
def chunkReadable (readable : Nat → Bool) (src len : Nat) : Bool :=
  decide (∀ i, i < len → readable ((src + i) / PAGE_SIZE) = true)

/-- Model of one `process_vm_readv` call (`safe_copy_one_chunk` in
`shim.c`) with a single iovec element.  Per the documented semantics,
partial transfers never split a single iovec element: the call moves the
whole range if every page of it is readable and otherwise moves nothing
and fails with -1 (EFAULT).  A zero-length read returns 0. -/
def safe_copy_one_chunk (readable : Nat → Bool) (src request : Nat) : Int :=
  if request = 0 then 0
  else if chunkReadable readable src request then (request : Int) else -1

/-- The page-by-page loop at the end of `safe_copy` in `shim.c`:
`while (copied < request)` copy `min(PAGE_SIZE, request - copied)` bytes
and stop at the first short read.  Returns the final `copied`.  Each
iteration advances `copied` by at least one, so `request` steps of fuel
always suffice. -/
def safe_copy_loop (readable : Nat → Bool) (src : Nat) :
    Nat → Nat → Nat → Nat
  | 0, copied, _ => copied
  | fuel + 1, copied, request =>
    if copied < request then
      let copy_size := min PAGE_SIZE (request - copied)
      if safe_copy_one_chunk readable (src + copied) copy_size = (copy_size : Int) then
        safe_copy_loop readable src fuel (copied + copy_size) request
      else copied
    else copied

/-- The `safe_copy` routine from `shim.c`, returning the total number of
source bytes copied into `dst`: try one big read; on failure advance by
whatever was read (nothing on EFAULT), re-align the source to a page
boundary with one partial read, then loop page by page. -/
def safe_copy (readable : Nat → Bool) (src request : Nat) : Nat :=
  let r := safe_copy_one_chunk readable src request
  if r = (request : Int) then request
  else
    let adv := r.toNat
    let src2 := src + adv
    let request2 := request - adv
    let max_initial := PAGE_SIZE - src2 % PAGE_SIZE
    if safe_copy_one_chunk readable src2 max_initial ≠ (max_initial : Int) then adv
    else adv + safe_copy_loop readable src2 request2 max_initial request2

/-- The number of contiguously readable bytes starting at `src`, capped
at `len` (pages of `readable` granularity).  This is the specification
value `safe_copy` is proved to copy. -/
def readRun (readable : Nat → Bool) (src : Nat) : Nat → Nat
  | 0 => 0
  | len + 1 =>
    if readable (src / PAGE_SIZE) then readRun readable (src + 1) len + 1 else 0

/-- The possible outcomes of `sampled_realloc` in `shim.c`, abstracting
the pointers it returns: delegate to this library's own `realloc`
(first-seeding reset), delegate to `sampled_malloc` (null pointer),
delegate to `sampled_realloc_from_tracked`, return null because
`tracked_alloc_get` failed, or move the data to a fresh tracked
allocation (recording how many bytes `safe_copy` copied and whether the
old pointer was passed to the underlying `free`). -/
inductive realloc_action where
  | pass_own_realloc
  | pass_sampled_malloc
  | from_tracked
  | alloc_failed
  | moved (newPtr copied : Nat) (freedOld : Bool)
deriving DecidableEq

/-- The `sampled_realloc` dispatch from `shim.c`.  `resetNewly` is the
result of `sample_request_reset`, `tracked` the result of
`tracked_alloc_p ptr`, `usable` the value `malloc_usable_size(ptr)`
returned (the C code only forwards it to the `realloc` probe), `newAlloc`
the pointer produced by `tracked_alloc_get(request)` (`none` on failure),
and `readable` the page-readability of the address space.  On the move
path the code calls `safe_copy(ret, ptr, request)` and then
`base_free(ptr)`. -/
def sampled_realloc (resetNewly : Bool) (tracked : Bool) (readable : Nat → Bool)
    (usable : Nat) (newAlloc : Option Nat) (ptr request : Nat) : realloc_action :=
  if resetNewly then .pass_own_realloc
  else if ptr = 0 then .pass_sampled_malloc
  else if tracked then .from_tracked
  else
    match newAlloc with
    | none => .alloc_failed
    | some ret =>
      let _ := usable
      .moved ret (safe_copy readable ptr request) true

/-- The `sampled_realloc_from_tracked` path from `shim.c`: look up the
old info (asserting trackedness), allocate a fresh tracked region, and if
that returned null propagate the null with the registry untouched;
otherwise copy `min(info.size, request)` bytes and release the old
allocation.  `alloc` and `newId` abstract `aligned_mmap` and the id
counter inside `tracked_alloc_get`. -/
def sampled_realloc_from_tracked (reg : Registry) (alloc : Option Nat) (newId : Nat)
    (ptr request : Nat) : Option (Option Nat × Registry) :=
  match tracked_alloc_info reg ptr with
  | none => none
  | some _info =>
    match tracked_alloc_get reg alloc newId request with
    | none => none
    | some (none, reg1) => some (none, reg1)
    | some (some ret, reg1) =>
      match tracked_alloc_put reg1 ptr with
      | none => none
      | some reg2 => some (some ret, reg2)

/-- The `sampled_realloc_to_regular` path from `shim.c`: look up the old
info (asserting trackedness), call the (own) `malloc`, and if it returned
null propagate the null with the registry untouched; otherwise copy
`min(info.size, request)` bytes and release the old allocation.
`mallocRet` abstracts the `malloc(request)` result. -/
def sampled_realloc_to_regular (reg : Registry) (mallocRet : Option Nat)
    (ptr request : Nat) : Option (Option Nat × Registry) :=
  match tracked_alloc_info reg ptr with
  | none => none
  | some _info =>
    match mallocRet with
    | none => some (none, reg)
    | some ret =>
      match tracked_alloc_put reg ptr with
      | none => none
      | some reg' => some (some ret, reg')

/-- How a `malloc` call was ultimately serviced. -/
inductive malloc_outcome where
  | pass_through
  | tracked_alloc
deriving DecidableEq

/-- The exported `malloc` of `shim.c` together with `sampled_malloc`:
run the `sample_request` fast test; on the pass-through path call
`base_malloc`; on the sampled path run `sample_request_reset`, and when
it reports a newly seeded RNG re-enter the shim's own `malloc` with the
same request, otherwise service the request from the tracked registry.
The re-entry consumes one unit of `fuel`. -/
def shim_malloc (seed : RngState) (expDraw : Nat → Nat) (innerFuel resetFuel : Nat) :
    Nat → sample_state → Nat → Option (malloc_outcome × sample_state)
  | 0, _, _ => none
  | fuel + 1, st, request =>
    let p := sample_request st request
    if p.1 then
      match sample_request_reset seed expDraw innerFuel resetFuel p.2 with
      | none => none
      | some (true, st2) => shim_malloc seed expDraw innerFuel resetFuel fuel st2 request
      | some (false, st2) => some (.tracked_alloc, st2)
    else some (.pass_through, p.2)

/-- A parsed double, as far as the period-validation code in `sample.c`
inspects one: NaN, a signed infinity, or a finite value (represented
exactly as a rational — every finite double is a rational). -/
inductive dval where
  | nan
  | inf (neg : Bool)
  | finite (q : ℚ)
deriving DecidableEq

/-- DEFAULT_SAMPLE_PERIOD from `sample.h`: `1UL << 25` bytes. -/
def DEFAULT_SAMPLE_PERIOD : ℚ := 2 ^ 25

/-- The rejection test in `initialise_sample_period`:
`period.f <= 0 || isinf(period.f) || isnan(period.f)`.  A NaN compares
false with `<= 0` but is caught by `isnan`; infinities are caught by
`isinf`. -/
def dval_invalid : dval → Bool
  | .nan => true
  | .inf _ => true
  | .finite q => decide (q ≤ 0)

/-- The outcome of the library constructor: the stored sample period and
the number of diagnostic lines written to stderr. -/
structure init_result where
  period : dval
  warnings : Nat
deriving DecidableEq

/-- The `initialise_sample_period` constructor from `sample.c`.
`envPeriod` is `none` when POIREAU_SAMPLE_PERIOD_BYTES is undefined and
otherwise carries the `strtod` outcome on its value: the parsed number
and whether the parse consumed the whole string (`*end_ptr == '\0'`).
`quietDefined` is whether POIREAU_QUIET is defined (any value).  The C
code prints each diagnostic under `if (getenv("POIREAU_QUIET") != NULL)`,
i.e. exactly when the quiet variable IS defined, and falls back to the
default period on either a partial parse or an invalid value. -/
def initialise_sample_period (envPeriod : Option (dval × Bool)) (quietDefined : Bool) :
    init_result :=
  match envPeriod with
  | none => { period := .finite DEFAULT_SAMPLE_PERIOD, warnings := 0 }
  | some (v0, fully) =>
    let w1 : Nat := if fully = false && quietDefined then 1 else 0
    let v1 := if fully = false then dval.finite DEFAULT_SAMPLE_PERIOD else v0
    let w2 : Nat := w1 + (if dval_invalid v1 && quietDefined then 1 else 0)
    let v2 := if dval_invalid v1 then dval.finite DEFAULT_SAMPLE_PERIOD else v1
    { period := v2, warnings := w2 }

/-! ### Helper lemmas: bit arithmetic and the xoshiro transition -/

theorem nat_or_eq_zero {a b : Nat} (h : a ||| b = 0) : a = 0 ∧ b = 0 := by
  constructor <;> apply Nat.eq_of_testBit_eq <;> intro i <;>
  · have hb := congrArg (fun t => Nat.testBit t i) h
    simp only [Nat.testBit_or, Nat.zero_testBit, Bool.or_eq_false_iff] at hb
    simp only [Nat.zero_testBit]
    first
    | exact hb.1
    | exact hb.2

theorem rotl_eq_zero {x : Nat} (h : rotl x 45 = 0) : x = 0 := by
  unfold rotl at h
  obtain ⟨h1, h2⟩ := nat_or_eq_zero h
  rw [Nat.shiftLeft_eq] at h1
  rw [Nat.shiftRight_eq_div_pow] at h2
  have hd : (2 : Nat) ^ 64 ∣ x * 2 ^ 45 := by
    have := Nat.dvd_of_mod_eq_zero h1
    simpa [U64] using this
  have hx19 : x < 2 ^ 19 := by
    have h19 : (64 : Nat) - 45 = 19 := by norm_num
    rw [h19] at h2
    have : (2 : Nat) ^ 19 = 524288 := by norm_num
    rw [this] at h2 ⊢
    omega
  have hlt : x * 2 ^ 45 < 2 ^ 64 := by
    have h45 : (2 : Nat) ^ 45 = 35184372088832 := by norm_num
    have h19 : (2 : Nat) ^ 19 = 524288 := by norm_num
    have h64 : (2 : Nat) ^ 64 = 18446744073709551616 := by norm_num
    rw [h45, h64]
    rw [h19] at hx19
    omega
  have hz := Nat.eq_zero_of_dvd_of_lt hd hlt
  have h45 : (2 : Nat) ^ 45 = 35184372088832 := by norm_num
  rw [h45] at hz
  omega

theorem shift17_fixed {b : Nat} (hb : b < U64) (h : (b <<< 17) % U64 = b) : b = 0 := by
  rw [Nat.shiftLeft_eq] at h
  have hb' : b < 2 ^ 64 := by simpa [U64] using hb
  have hmod : b * 2 ^ 17 ≡ b [MOD 2 ^ 64] := by
    show b * 2 ^ 17 % 2 ^ 64 = b % 2 ^ 64
    rw [Nat.mod_eq_of_lt hb']
    simpa [U64] using h
  have hle : b ≤ b * 2 ^ 17 := Nat.le_mul_of_pos_right b (by norm_num)
  have hdvd : (2 : Nat) ^ 64 ∣ b * 2 ^ 17 - b := (Nat.modEq_iff_dvd' hle).mp hmod.symm
  have heq : b * 2 ^ 17 - b = b * (2 ^ 17 - 1) := by
    have h17 : (2 : Nat) ^ 17 = 131072 := by norm_num
    rw [h17]
    omega
  rw [heq] at hdvd
  have hco : Nat.Coprime (2 ^ 64) (2 ^ 17 - 1) := by
    apply Nat.Coprime.pow_left
    rw [Nat.prime_two.coprime_iff_not_dvd]
    norm_num
  have hdb : (2 : Nat) ^ 64 ∣ b := hco.dvd_of_dvd_mul_right hdvd
  exact Nat.eq_zero_of_dvd_of_lt hdb hb'

theorem xoshiro_next_fst (st : RngState) :
    (xoshiro_next st).1 = ((st.s0 + st.s3) % U64) >>> 12 := rfl

theorem xoshiro_next_snd (st : RngState) :
    (xoshiro_next st).2 =
      ⟨st.s0 ^^^ (st.s3 ^^^ st.s1),
       st.s1 ^^^ (st.s2 ^^^ st.s0),
       (st.s2 ^^^ st.s0) ^^^ ((st.s1 <<< 17) % U64),
       rotl (st.s3 ^^^ st.s1) 45⟩ := rfl

theorem rotl_lt {x : Nat} (hx : x < U64) : rotl x 45 < U64 := by
  unfold rotl
  simp only [U64] at *
  apply Nat.or_lt_two_pow
  · exact Nat.mod_lt _ (by norm_num)
  · rw [Nat.shiftRight_eq_div_pow]
    exact lt_of_le_of_lt (Nat.div_le_self _ _) hx

theorem xoshiro_next_bounded {st : RngState} (h : st.Bounded) :
    (xoshiro_next st).2.Bounded := by
  obtain ⟨h0, h1, h2, h3⟩ := h
  rw [xoshiro_next_snd]
  refine ⟨?_, ?_, ?_, ?_⟩
  · simp only [U64] at *
    exact Nat.xor_lt_two_pow h0 (Nat.xor_lt_two_pow h3 h1)
  · simp only [U64] at *
    exact Nat.xor_lt_two_pow h1 (Nat.xor_lt_two_pow h2 h0)
  · simp only [U64] at *
    exact Nat.xor_lt_two_pow (Nat.xor_lt_two_pow h2 h0) (Nat.mod_lt _ (by norm_num))
  · exact rotl_lt (by simp only [U64] at *; exact Nat.xor_lt_two_pow h3 h1)

theorem xoshiro_next_ne_zero {st : RngState} (hb : st.Bounded)
    (h : (xoshiro_next st).2 = zeroRng) : st = zeroRng := by
  obtain ⟨a, b, c, d⟩ := st
  obtain ⟨hba, hbb, hbc, hbd⟩ := hb
  rw [xoshiro_next_snd] at h
  simp only [zeroRng, RngState.mk.injEq] at h ⊢
  obtain ⟨e0, e1, e2, e3⟩ := h
  have hdb : d ^^^ b = 0 := rotl_eq_zero e3
  have hd : d = b := Nat.xor_eq_zero.mp hdb
  rw [hdb] at e0
  have ha : a = 0 := by simpa using e0
  rw [ha] at e1
  have hcb : c = b := by
    have : b ^^^ c = 0 := by simpa using e1
    exact (Nat.xor_eq_zero.mp this).symm
  rw [ha, hcb] at e2
  have hbt : (b <<< 17) % U64 = b := by
    have : b ^^^ (b <<< 17) % U64 = 0 := by simpa using e2
    exact (Nat.xor_eq_zero.mp this).symm
  have hb0 : b = 0 := shift17_fixed hbb hbt
  exact ⟨ha, hb0, by rw [hcb, hb0], by rw [hd, hb0]⟩

/-! ### Helper lemmas: the uniform draw and the reset loop -/

theorem rng_is_zero_iff {st : RngState} : rng_is_zero st = true ↔ st = zeroRng := by
  obtain ⟨a, b, c, d⟩ := st
  simp [rng_is_zero, zeroRng, RngState.mk.injEq, Bool.and_eq_true, and_assoc]

theorem rng_is_zero_false {st : RngState} (h : st ≠ zeroRng) : rng_is_zero st = false := by
  rw [Bool.eq_false_iff]
  intro hc
  exact h (rng_is_zero_iff.mp hc)

theorem slow_path_newly_true (seed : RngState) :
    ∀ fuel st r s n, sample_uniform_slow_path seed fuel st true = some (r, s, n) →
      n = true := by
  intro fuel
  induction fuel with
  | zero => intro st r s n h; simp [sample_uniform_slow_path] at h
  | succ k ih =>
    intro st r s n h
    simp only [sample_uniform_slow_path, Bool.true_or] at h
    split at h
    · exact ih _ _ _ _ h
    · simp only [Option.some.injEq, Prod.mk.injEq] at h
      exact h.2.2.symm

theorem slow_path_from_zero (seed : RngState) :
    ∀ fuel r s n, sample_uniform_slow_path seed fuel zeroRng false = some (r, s, n) →
      n = true := by
  intro fuel r s n h
  cases fuel with
  | zero => simp [sample_uniform_slow_path] at h
  | succ k =>
    have hmi : maybe_initialize_xoshiro seed zeroRng = (true, seed) := by
      simp [maybe_initialize_xoshiro, rng_is_zero_iff.mpr rfl]
    simp only [sample_uniform_slow_path, hmi, Bool.or_true] at h
    split at h
    · exact slow_path_newly_true seed k _ _ _ _ h
    · simp only [Option.some.injEq, Prod.mk.injEq] at h
      exact h.2.2.symm

theorem slow_path_not_newly (seed : RngState) :
    ∀ fuel st newly r s n, st.Bounded → st ≠ zeroRng →
      sample_uniform_slow_path seed fuel st newly = some (r, s, n) →
      n = newly ∧ s ≠ zeroRng ∧ s.Bounded := by
  intro fuel
  induction fuel with
  | zero => intro st newly r s n _ _ h; simp [sample_uniform_slow_path] at h
  | succ k ih =>
    intro st newly r s n hb hz h
    have hmi : maybe_initialize_xoshiro seed st = (false, st) := by
      simp [maybe_initialize_xoshiro, rng_is_zero_false hz]
    simp only [sample_uniform_slow_path, hmi, Bool.or_false] at h
    have hb2 : (xoshiro_next st).2.Bounded := xoshiro_next_bounded hb
    have hz2 : (xoshiro_next st).2 ≠ zeroRng := fun hc => hz (xoshiro_next_ne_zero hb hc)
    split at h
    · exact ih _ _ _ _ _ hb2 hz2 h
    · simp only [Option.some.injEq, Prod.mk.injEq] at h
      exact ⟨h.2.2.symm, h.2.1 ▸ hz2, h.2.1 ▸ hb2⟩

theorem sample_uniform_from_zero (seed : RngState) (fuel : Nat) (r : Nat) (s : RngState)
    (n : Bool) (h : sample_uniform seed fuel zeroRng = some (r, s, n)) : n = true := by
  have hx : xoshiro_next zeroRng = (0, zeroRng) := rfl
  simp only [sample_uniform, hx] at h
  exact slow_path_from_zero seed fuel r s n (by simpa using h)

theorem sample_uniform_not_newly (seed : RngState) (fuel : Nat) (st : RngState)
    (r : Nat) (s : RngState) (n : Bool) (hb : st.Bounded) (hz : st ≠ zeroRng)
    (h : sample_uniform seed fuel st = some (r, s, n)) :
    n = false ∧ s ≠ zeroRng ∧ s.Bounded := by
  simp only [sample_uniform] at h
  have hb2 : (xoshiro_next st).2.Bounded := xoshiro_next_bounded hb
  have hz2 : (xoshiro_next st).2 ≠ zeroRng := fun hc => hz (xoshiro_next_ne_zero hb hc)
  split at h
  · exact slow_path_not_newly seed fuel _ _ _ _ _ hb2 hz2 h
  · simp only [Option.some.injEq, Prod.mk.injEq] at h
    exact ⟨h.2.2.symm, h.2.1 ▸ hz2, h.2.1 ▸ hb2⟩

theorem reset_not_newly (seed : RngState) (draw : Nat → Nat) (iF : Nat) :
    ∀ fuel st b st', st.rng.Bounded → st.rng ≠ zeroRng →
      sample_request_reset seed draw iF fuel st = some (b, st') → b = false := by
  intro fuel
  induction fuel with
  | zero => intro st b st' _ _ h; simp [sample_request_reset] at h
  | succ k ih =>
    intro st b st' hb hz h
    simp only [sample_request_reset] at h
    cases hu : sample_uniform seed iF st.rng with
    | none => rw [hu] at h; simp at h
    | some v =>
      obtain ⟨bits, s2, newly⟩ := v
      rw [hu] at h
      obtain ⟨hn, hz2, hb2⟩ := sample_uniform_not_newly seed iF st.rng bits s2 newly hb hz hu
      subst hn
      simp only [Bool.false_eq_true, if_false] at h
      split at h
      · exact ih _ _ _ hb2 hz2 h
      · simp only [Option.some.injEq, Prod.mk.injEq] at h
        exact h.1.symm

theorem reset_from_zero (seed : RngState) (draw : Nat → Nat) (iF : Nat)
    (fuel : Nat) (st : sample_state) (b : Bool) (st' : sample_state)
    (hz : st.rng = zeroRng)
    (h : sample_request_reset seed draw iF fuel st = some (b, st')) : b = true := by
  cases fuel with
  | zero => simp [sample_request_reset] at h
  | succ k =>
    simp only [sample_request_reset, hz] at h
    cases hu : sample_uniform seed iF zeroRng with
    | none => rw [hu] at h; simp at h
    | some v =>
      obtain ⟨bits, s2, newly⟩ := v
      rw [hu] at h
      have hn := sample_uniform_from_zero seed iF bits s2 newly hu
      subst hn
      simp only [if_true] at h
      simp only [Option.some.injEq, Prod.mk.injEq] at h
      exact h.1.symm

theorem reset_false_nonzero (seed : RngState) (draw : Nat → Nat) (iF : Nat) :
    ∀ fuel st st', sample_request_reset seed draw iF fuel st = some (false, st') →
      st'.bytes_until_next_sample ≠ 0 := by
  intro fuel
  induction fuel with
  | zero => intro st st' h; simp [sample_request_reset] at h
  | succ k ih =>
    intro st st' h
    simp only [sample_request_reset] at h
    cases hu : sample_uniform seed iF st.rng with
    | none => rw [hu] at h; simp at h
    | some v =>
      obtain ⟨bits, s2, newly⟩ := v
      rw [hu] at h
      cases newly with
      | true =>
        simp only [if_true, Option.some.injEq, Prod.mk.injEq] at h
        exact absurd h.1.symm (by simp)
      | false =>
        simp only [Bool.false_eq_true, if_false] at h
        split at h
        · exact ih _ _ h
        · simp only [Option.some.injEq, Prod.mk.injEq] at h
          rw [← h.2]
          simpa using by assumption

theorem shim_malloc_zero_step (seed : RngState) (draw : Nat → Nat) (iF rF fuel : Nat)
    (st : sample_state) (n : Nat) (st2 : sample_state)
    (hb : st.bytes_until_next_sample = 0)
    (hr : sample_request_reset seed draw iF rF (sample_request st n).2 = some (true, st2)) :
    shim_malloc seed draw iF rF (fuel + 1) st n = shim_malloc seed draw iF rF fuel st2 n := by
  have hs : (sample_request st n).1 = true := by
    simp [sample_request, hb]
  simp only [shim_malloc, hs, if_true, hr]

/-! ### Claim theorems: the sampler -/

/-- C1: for every sampler state and request `n` (both representable in 64
bits), `sample_request` returns true iff `n` is at least the previous
value of `bytes_until_next_sample`, and in every case it stores the
wrapped two's-complement difference `previous - n` (mod 2^64) back into
`bytes_until_next_sample`, leaving the RNG words untouched. -/
theorem sample_request_subtract_borrow (st : sample_state) (n : Nat)
    (hc : st.bytes_until_next_sample < U64) (hn : n < U64) :
    ((sample_request st n).1 = true ↔ n ≥ st.bytes_until_next_sample) ∧
    ((sample_request st n).2.bytes_until_next_sample : Int) =
      ((st.bytes_until_next_sample : Int) - (n : Int)) % (2 ^ 64 : Int) ∧
    (sample_request st n).2.rng = st.rng := by
  refine ⟨by simp [sample_request], ?_, rfl⟩
  simp only [sample_request]
  simp only [U64] at hc hn ⊢
  have hn' : n % 2 ^ 64 = n := Nat.mod_eq_of_lt hn
  rw [hn']
  omega

/-- Witness for C1 at a concrete state. -/
theorem sample_request_subtract_borrow_witness :
    ((sample_request ⟨zeroRng, 100⟩ 7).1 = true ↔ 7 ≥ 100) ∧
    ((sample_request ⟨zeroRng, 100⟩ 7).2.bytes_until_next_sample : Int) =
      (100 - 7) % (2 ^ 64 : Int) ∧
    (sample_request ⟨zeroRng, 100⟩ 7).2.rng = zeroRng :=
  sample_request_subtract_borrow ⟨zeroRng, 100⟩ 7 (by norm_num [U64]) (by norm_num [U64])

/-- C8 counterexample: with the debt counter at zero — exactly the state
every freshly spawned thread starts in — a zero-byte request DOES trigger
the sampling test, because `0 >= 0`: the claimed universal
`sample_request state 0 = false` fails. -/
theorem sample_request_zero_request_cex :
    (sample_request ⟨zeroRng, 0⟩ 0).1 = true := by decide

/-- C8 (amended): a zero-byte request triggers the sampling test exactly
when `bytes_until_next_sample` is already zero; whenever the counter is
nonzero, `sample_request state 0` returns false and `malloc(0)` takes
the pass-through fast path. -/
theorem sample_request_zero_iff_zero_debt (st : sample_state) :
    ((sample_request st 0).1 = true ↔ st.bytes_until_next_sample = 0) ∧
    (st.bytes_until_next_sample ≠ 0 →
      ∀ seed draw iF rF fuel,
        shim_malloc seed draw iF rF (fuel + 1) st 0 =
          some (.pass_through, (sample_request st 0).2)) := by
  constructor
  · simp [sample_request]
  · intro h seed draw iF rF fuel
    have hs : (sample_request st 0).1 = false := by
      simp [sample_request]
      omega
    simp only [shim_malloc, hs, Bool.false_eq_true, if_false]


/-- Witness for C8's amended theorem at a concrete nonzero-debt state. -/
theorem sample_request_zero_iff_zero_debt_witness :
    shim_malloc zeroRng (fun _ => 0) 1 1 1 ⟨zeroRng, 5⟩ 0 =
      some (.pass_through, (sample_request ⟨zeroRng, 5⟩ 0).2) :=
  (sample_request_zero_iff_zero_debt ⟨zeroRng, 5⟩).2 (by decide) zeroRng (fun _ => 0) 1 1 0

/-- C9: the sampler treats the RNG state as unseeded exactly when all
four words are zero, and the xoshiro256+ transition `xoshiro_next` never
maps a state with some nonzero word to the all-zero state. -/
theorem xoshiro_preserves_seeded (seed st : RngState) (hb : st.Bounded) :
    ((maybe_initialize_xoshiro seed st).1 = true ↔ st = zeroRng) ∧
    (st ≠ zeroRng → (xoshiro_next st).2 ≠ zeroRng) := by
  constructor
  · have hfst : (maybe_initialize_xoshiro seed st).1 = rng_is_zero st := by
      unfold maybe_initialize_xoshiro
      split <;> simp_all
    rw [hfst]
    exact rng_is_zero_iff
  · intro hz hc
    exact hz (xoshiro_next_ne_zero hb hc)

/-- Witness for C9 at a concrete seeded state. -/
theorem xoshiro_preserves_seeded_witness :
    ((maybe_initialize_xoshiro zeroRng ⟨1, 2, 3, 4⟩).1 = true ↔
      (⟨1, 2, 3, 4⟩ : RngState) = zeroRng) ∧
    ((⟨1, 2, 3, 4⟩ : RngState) ≠ zeroRng → (xoshiro_next ⟨1, 2, 3, 4⟩).2 ≠ zeroRng) :=
  xoshiro_preserves_seeded zeroRng ⟨1, 2, 3, 4⟩ (by constructor <;> norm_num [U64])

/-- C4: `sample_request_reset` returns true exactly when the call seeded
a previously all-zero RNG state (a bounded nonzero state can never
produce a `true`, an all-zero state can never produce a `false`), and
when that happens on `malloc`'s sampled path — as on the first
triggering allocation of a freshly spawned thread, whose state is
all-zero with a zero debt counter — the request is not serviced as a
sampled allocation but retried through the shim's own `malloc`. -/
theorem sample_request_reset_first_seed :
    (∀ seed draw iF fuel (st : sample_state) b st', st.rng.Bounded → st.rng ≠ zeroRng →
      sample_request_reset seed draw iF fuel st = some (b, st') → b = false) ∧
    (∀ seed draw iF fuel (st : sample_state) b st', st.rng = zeroRng →
      sample_request_reset seed draw iF fuel st = some (b, st') → b = true) ∧
    (∀ seed draw iF rF fuel (st : sample_state) n st2,
      st.bytes_until_next_sample = 0 →
      sample_request_reset seed draw iF rF (sample_request st n).2 = some (true, st2) →
      shim_malloc seed draw iF rF (fuel + 1) st n =
        shim_malloc seed draw iF rF fuel st2 n) :=
  ⟨fun seed draw iF fuel st b st' hb hz h => reset_not_newly seed draw iF fuel st b st' hb hz h,
   fun seed draw iF fuel st b st' hz h => reset_from_zero seed draw iF fuel st b st' hz h,
   fun seed draw iF rF fuel st n st2 hb hr =>
     shim_malloc_zero_step seed draw iF rF fuel st n st2 hb hr⟩

/-- Witness for C4: a nonzero-state reset returning false, an all-zero
state reset returning true, and the re-entry step of `sampled_malloc`
on a fresh thread's first triggering request. -/
theorem sample_request_reset_first_seed_witness :
    sample_request_reset ⟨8192, 0, 0, 0⟩ (fun _ => 5) 3 3 ⟨⟨8192, 0, 0, 0⟩, 0⟩ =
      some (false, ⟨⟨8192, 8192, 8192, 0⟩, 5⟩) ∧
    sample_request_reset ⟨8192, 0, 0, 0⟩ (fun _ => 5) 3 3 ⟨zeroRng, 0⟩ =
      some (true, ⟨⟨8192, 8192, 8192, 0⟩, 5⟩) ∧
    shim_malloc ⟨8192, 0, 0, 0⟩ (fun _ => 5) 3 3 4 ⟨zeroRng, 0⟩ 7 =
      shim_malloc ⟨8192, 0, 0, 0⟩ (fun _ => 5) 3 3 3 ⟨⟨8192, 8192, 8192, 0⟩, 5⟩ 7 :=
  ⟨by decide, by decide,
   sample_request_reset_first_seed.2.2 ⟨8192, 0, 0, 0⟩ (fun _ => 5) 3 3 3
     ⟨zeroRng, 0⟩ 7 ⟨⟨8192, 8192, 8192, 0⟩, 5⟩ rfl (by decide)⟩

/-- C7 counterexample: a reset that coincides with the first seeding of
the thread's RNG returns true immediately, before the zero-debt check,
so a zero exponential draw is stored: here `sample_request_reset`
returns with `bytes_until_next_sample = 0`, refuting the claim that the
field is nonzero after every call. -/
theorem sample_request_reset_zero_debt_cex :
    sample_request_reset ⟨8192, 0, 0, 0⟩ (fun _ => 0) 3 3 ⟨zeroRng, 1⟩ =
      some (true, ⟨⟨8192, 8192, 8192, 0⟩, 0⟩) ∧
    (⟨⟨8192, 8192, 8192, 0⟩, 0⟩ : sample_state).bytes_until_next_sample = 0 := by
  constructor
  · decide
  · rfl

/-- C7 (amended): after every call to `sample_request_reset` that
returns false (the request IS sampled), `bytes_until_next_sample` is
nonzero: a zero draw makes the reset loop and draw again.  The loop
guards only this path; a reset that coincides with the first seeding of
the RNG returns true immediately, and may leave a zero debt. -/
theorem sample_request_reset_false_nonzero_debt (seed : RngState) (draw : Nat → Nat)
    (iF fuel : Nat) (st st' : sample_state)
    (h : sample_request_reset seed draw iF fuel st = some (false, st')) :
    st'.bytes_until_next_sample ≠ 0 :=
  reset_false_nonzero seed draw iF fuel st st' h

/-- Witness for C7's amended theorem at a concrete reset. -/
theorem sample_request_reset_false_nonzero_debt_witness :
    sample_request_reset ⟨1, 1, 1, 1⟩ (fun _ => 5) 3 3 ⟨⟨8192, 0, 0, 0⟩, 0⟩ =
      some (false, ⟨⟨8192, 8192, 8192, 0⟩, 5⟩) ∧
    (⟨⟨8192, 8192, 8192, 0⟩, 5⟩ : sample_state).bytes_until_next_sample ≠ 0 :=
  ⟨by decide,
   sample_request_reset_false_nonzero_debt ⟨1, 1, 1, 1⟩ (fun _ => 5) 3 3
     ⟨⟨8192, 0, 0, 0⟩, 0⟩ _ (by decide)⟩

/-! ### Claim theorems: the tracked-allocation registry -/

/-- C2: `tracked_alloc_p table p` is true iff `p` is nonzero,
2^30-aligned and the table slot `p / 2^30` holds exactly `p`; and when
`p` is null or misaligned the result is false for every table, i.e. the
test decides without reading the table. -/
theorem tracked_alloc_p_membership (table : Nat → Nat) (ptr : Nat) :
    (tracked_alloc_p table ptr = true ↔
      ptr ≠ 0 ∧ ptr % TRACKING_ALIGNMENT = 0 ∧ table (ptr / TRACKING_ALIGNMENT) = ptr) ∧
    (ptr = 0 ∨ ptr % TRACKING_ALIGNMENT ≠ 0 →
      ∀ t, tracked_alloc_p t ptr = false) := by
  constructor
  · unfold tracked_alloc_p
    split
    · simp_all
    · split
      · simp_all
      · simp_all [eq_comm]
  · rintro (rfl | h) t
    · simp [tracked_alloc_p]
    · simp [tracked_alloc_p, h]

/-- Witness for C2: a null pointer is rejected whatever the table says,
and an aligned tracked pointer satisfies the membership equation. -/
theorem tracked_alloc_p_membership_witness :
    tracked_alloc_p (fun _ => 5) 0 = false ∧
    (tracked_alloc_p (fun i => if i = 3 then 3 * TRACKING_ALIGNMENT else 0)
        (3 * TRACKING_ALIGNMENT) = true ↔
      3 * TRACKING_ALIGNMENT ≠ 0 ∧ 3 * TRACKING_ALIGNMENT % TRACKING_ALIGNMENT = 0 ∧
      (fun i => if i = 3 then 3 * TRACKING_ALIGNMENT else 0)
        (3 * TRACKING_ALIGNMENT / TRACKING_ALIGNMENT) = 3 * TRACKING_ALIGNMENT) :=
  ⟨(tracked_alloc_p_membership (fun _ => 5) 0).2 (Or.inl rfl) (fun _ => 5),
   (tracked_alloc_p_membership _ _).1⟩

/-- C3: releasing a pointer whose slot entry equals the pointer and
whose slot id is nonzero clears the id, the size and the address entry
of the slot, after which `tracked_alloc_p` is false for that pointer;
releasing a pointer that is not the exact tracked base, or whose slot id
is zero (a double or invalid free), aborts the process. -/
theorem tracked_alloc_put_clears (reg : Registry) (ptr : Nat) :
    (reg.table (ptr / TRACKING_ALIGNMENT) = ptr →
      reg.ids (ptr / TRACKING_ALIGNMENT) ≠ 0 →
      tracked_alloc_put reg ptr =
        some { table := updAt reg.table (ptr / TRACKING_ALIGNMENT) 0,
               ids := updAt reg.ids (ptr / TRACKING_ALIGNMENT) 0,
               sizes := updAt reg.sizes (ptr / TRACKING_ALIGNMENT) 0 } ∧
      updAt reg.ids (ptr / TRACKING_ALIGNMENT) 0 (ptr / TRACKING_ALIGNMENT) = 0 ∧
      updAt reg.sizes (ptr / TRACKING_ALIGNMENT) 0 (ptr / TRACKING_ALIGNMENT) = 0 ∧
      updAt reg.table (ptr / TRACKING_ALIGNMENT) 0 (ptr / TRACKING_ALIGNMENT) = 0 ∧
      tracked_alloc_p (updAt reg.table (ptr / TRACKING_ALIGNMENT) 0) ptr = false) ∧
    (reg.table (ptr / TRACKING_ALIGNMENT) ≠ ptr ∨ reg.ids (ptr / TRACKING_ALIGNMENT) = 0 →
      tracked_alloc_put reg ptr = none) := by
  constructor
  · intro h1 h2
    refine ⟨?_, by simp [updAt], by simp [updAt], by simp [updAt], ?_⟩
    · simp [tracked_alloc_put, tracked_alloc_info, h1, h2]
    · unfold tracked_alloc_p
      split
      · rfl
      · split
        · rfl
        · simp only [updAt, if_pos rfl, decide_eq_true_eq]
          simp_all
  · rintro (h | h)
    · simp [tracked_alloc_put, tracked_alloc_info, h]
    · by_cases htab : reg.table (ptr / TRACKING_ALIGNMENT) = ptr
      · simp [tracked_alloc_put, tracked_alloc_info, htab, h]
      · simp [tracked_alloc_put, tracked_alloc_info, htab]

/-- Witness for C3: releasing a concrete tracked slot clears it and the
pointer stops being tracked. -/
theorem tracked_alloc_put_clears_witness :
    tracked_alloc_put
        ⟨fun i => if i = 3 then 3 * TRACKING_ALIGNMENT else 0,
         fun i => if i = 3 then 7 else 0,
         fun i => if i = 3 then 42 else 0⟩ (3 * TRACKING_ALIGNMENT) =
      some { table := updAt (fun i => if i = 3 then 3 * TRACKING_ALIGNMENT else 0)
                        (3 * TRACKING_ALIGNMENT / TRACKING_ALIGNMENT) 0,
             ids := updAt (fun i => if i = 3 then 7 else 0)
                        (3 * TRACKING_ALIGNMENT / TRACKING_ALIGNMENT) 0,
             sizes := updAt (fun i => if i = 3 then 42 else 0)
                        (3 * TRACKING_ALIGNMENT / TRACKING_ALIGNMENT) 0 } ∧
    updAt (fun i => if i = 3 then 7 else 0)
        (3 * TRACKING_ALIGNMENT / TRACKING_ALIGNMENT) 0
        (3 * TRACKING_ALIGNMENT / TRACKING_ALIGNMENT) = 0 ∧
    updAt (fun i => if i = 3 then 42 else 0)
        (3 * TRACKING_ALIGNMENT / TRACKING_ALIGNMENT) 0
        (3 * TRACKING_ALIGNMENT / TRACKING_ALIGNMENT) = 0 ∧
    updAt (fun i => if i = 3 then 3 * TRACKING_ALIGNMENT else 0)
        (3 * TRACKING_ALIGNMENT / TRACKING_ALIGNMENT) 0
        (3 * TRACKING_ALIGNMENT / TRACKING_ALIGNMENT) = 0 ∧
    tracked_alloc_p (updAt (fun i => if i = 3 then 3 * TRACKING_ALIGNMENT else 0)
        (3 * TRACKING_ALIGNMENT / TRACKING_ALIGNMENT) 0) (3 * TRACKING_ALIGNMENT) = false :=
  (tracked_alloc_put_clears
      ⟨fun i => if i = 3 then 3 * TRACKING_ALIGNMENT else 0,
       fun i => if i = 3 then 7 else 0,
       fun i => if i = 3 then 42 else 0⟩ (3 * TRACKING_ALIGNMENT)).1
    (by norm_num [TRACKING_ALIGNMENT]) (by norm_num [TRACKING_ALIGNMENT])

/-- C10: when a realloc of a currently tracked pointer fails to obtain
the new allocation (either the fresh tracked mapping in
`sampled_realloc_from_tracked`, or the underlying `malloc` in
`sampled_realloc_to_regular`), the call returns null with the registry
untouched: `tracked_alloc_put` is not reached, so the old pointer stays
tracked with unchanged id and size. -/
theorem tracked_realloc_alloc_failure (reg : Registry) (ptr request newId : Nat)
    (h : reg.table (ptr / TRACKING_ALIGNMENT) = ptr) :
    sampled_realloc_from_tracked reg none newId ptr request = some (none, reg) ∧
    sampled_realloc_to_regular reg none ptr request = some (none, reg) := by
  constructor
  · simp [sampled_realloc_from_tracked, tracked_alloc_info, tracked_alloc_get, h]
  · simp [sampled_realloc_to_regular, tracked_alloc_info, h]

/-- Witness for C10 at a concrete registry. -/
theorem tracked_realloc_alloc_failure_witness :
    sampled_realloc_from_tracked
        ⟨fun i => if i = 2 then 2 * TRACKING_ALIGNMENT else 0,
         fun i => if i = 2 then 9 else 0,
         fun i => if i = 2 then 64 else 0⟩ none 11 (2 * TRACKING_ALIGNMENT) 4096 =
      some (none, ⟨fun i => if i = 2 then 2 * TRACKING_ALIGNMENT else 0,
                   fun i => if i = 2 then 9 else 0,
                   fun i => if i = 2 then 64 else 0⟩) ∧
    sampled_realloc_to_regular
        ⟨fun i => if i = 2 then 2 * TRACKING_ALIGNMENT else 0,
         fun i => if i = 2 then 9 else 0,
         fun i => if i = 2 then 64 else 0⟩ none (2 * TRACKING_ALIGNMENT) 4096 =
      some (none, ⟨fun i => if i = 2 then 2 * TRACKING_ALIGNMENT else 0,
                   fun i => if i = 2 then 9 else 0,
                   fun i => if i = 2 then 64 else 0⟩) :=
  tracked_realloc_alloc_failure _ (2 * TRACKING_ALIGNMENT) 4096 11
    (by norm_num [TRACKING_ALIGNMENT])

/-! ### Claim theorems: the sample-period constructor -/

/-- C6: evaluation of `initialise_sample_period` at the divergent
inputs.  With an unparsable (or non-positive) configured period the code
always falls back to the default, but it prints the diagnostic exactly
when POIREAU_QUIET IS defined and prints nothing when it is undefined —
the opposite of the claim and of the diagnostic's own text ("Define
POIREAU_QUIET to silence this warning"): the `getenv("POIREAU_QUIET")
!= NULL` guards in `sample.c` are inverted. -/
theorem initialise_sample_period_quiet_inverted :
    initialise_sample_period (some (.nan, false)) false =
      { period := .finite DEFAULT_SAMPLE_PERIOD, warnings := 0 } ∧
    initialise_sample_period (some (.nan, false)) true =
      { period := .finite DEFAULT_SAMPLE_PERIOD, warnings := 1 } ∧
    initialise_sample_period (some (.finite (-3), true)) false =
      { period := .finite DEFAULT_SAMPLE_PERIOD, warnings := 0 } ∧
    initialise_sample_period (some (.finite (-3), true)) true =
      { period := .finite DEFAULT_SAMPLE_PERIOD, warnings := 1 } := by
  refine ⟨?_, ?_, ?_, ?_⟩ <;> rfl

/-! ### Helper lemmas: the fault-tolerant copy -/

theorem readRun_le (readable : Nat → Bool) : ∀ len src, readRun readable src len ≤ len := by
  intro len
  induction len with
  | zero => intro src; simp [readRun]
  | succ k ih =>
    intro src
    simp only [readRun]
    split
    · have := ih (src + 1); omega
    · omega

theorem chunkReadable_iff {readable : Nat → Bool} {src len : Nat} :
    chunkReadable readable src len = true ↔
      ∀ i, i < len → readable ((src + i) / PAGE_SIZE) = true := by
  simp [chunkReadable]

theorem readRun_eq_len {readable : Nat → Bool} : ∀ {len src : Nat},
    (∀ i, i < len → readable ((src + i) / PAGE_SIZE) = true) →
    readRun readable src len = len := by
  intro len
  induction len with
  | zero => intro src _; rfl
  | succ k ih =>
    intro src h
    have h0 : readable (src / PAGE_SIZE) = true := by
      have := h 0 (by omega)
      simpa using this
    simp only [readRun, h0, if_true]
    have : readRun readable (src + 1) k = k := by
      apply ih
      intro i hi
      have := h (i + 1) (by omega)
      rw [show src + 1 + i = src + (i + 1) by omega]
      exact this
    omega

theorem readRun_stop {readable : Nat → Bool} {src len : Nat}
    (h : readable (src / PAGE_SIZE) = false) (hl : 0 < len) :
    readRun readable src len = 0 := by
  cases len with
  | zero => omega
  | succ k => simp [readRun, h]

theorem readRun_add {readable : Nat → Bool} : ∀ (a : Nat) (b src : Nat),
    readRun readable src a = a →
    readRun readable src (a + b) = a + readRun readable (src + a) b := by
  intro a
  induction a with
  | zero => intro b src _; simp
  | succ k ih =>
    intro b src h
    simp only [readRun] at h
    by_cases hr : readable (src / PAGE_SIZE) = true
    · rw [hr] at h
      simp only [if_true] at h
      have hk : readRun readable (src + 1) k = k := by omega
      have hstep : readRun readable src (k + 1 + b) = readRun readable src ((k + b) + 1) := by
        rw [show k + 1 + b = (k + b) + 1 by omega]
      rw [hstep]
      simp only [readRun, hr, if_true]
      rw [ih b (src + 1) hk]
      rw [show src + 1 + k = src + (k + 1) by omega]
      omega
    · rw [Bool.not_eq_true] at hr
      rw [hr] at h
      simp at h

theorem div_page_within {x i : Nat} (hi : i < PAGE_SIZE - x % PAGE_SIZE) :
    (x + i) / PAGE_SIZE = x / PAGE_SIZE := by
  simp only [PAGE_SIZE] at *
  omega

theorem one_chunk_eq_iff {readable : Nat → Bool} {src len : Nat} :
    safe_copy_one_chunk readable src len = (len : Int) ↔
      (len = 0 ∨ chunkReadable readable src len = true) := by
  unfold safe_copy_one_chunk
  split
  · simp_all
  · split
    · simp_all
    · constructor
      · intro h
        exfalso
        omega
      · intro h
        rcases h with h | h <;> simp_all

theorem one_chunk_neg {readable : Nat → Bool} {src len : Nat} (h0 : len ≠ 0)
    (h : chunkReadable readable src len = false) :
    safe_copy_one_chunk readable src len = -1 := by
  simp [safe_copy_one_chunk, h0, h]

theorem safe_copy_loop_eq (readable : Nat → Bool) (src : Nat) :
    ∀ fuel copied request, copied ≤ request → request - copied ≤ fuel →
      (copied < request → (src + copied) % PAGE_SIZE = 0) →
      safe_copy_loop readable src fuel copied request =
        copied + readRun readable (src + copied) (request - copied) := by
  intro fuel
  induction fuel with
  | zero =>
    intro copied request h1 h2 _
    have hz : request - copied = 0 := by omega
    simp [safe_copy_loop, hz, readRun]
  | succ k ih =>
    intro copied request h1 h2 halign
    simp only [safe_copy_loop]
    by_cases hc : copied < request
    · rw [if_pos hc]
      have halign' := halign hc
      have hpage : ∀ i, i < min PAGE_SIZE (request - copied) →
          (src + copied + i) / PAGE_SIZE = (src + copied) / PAGE_SIZE := by
        intro i hi
        apply div_page_within
        rw [halign']
        simp only [PAGE_SIZE] at *
        omega
      by_cases hr : readable ((src + copied) / PAGE_SIZE) = true
      · have hchunk : safe_copy_one_chunk readable (src + copied)
            (min PAGE_SIZE (request - copied)) = ((min PAGE_SIZE (request - copied) : Nat) : Int) := by
          rw [one_chunk_eq_iff]
          right
          rw [chunkReadable_iff]
          intro i hi
          rw [hpage i hi]
          exact hr
        rw [if_pos hchunk]
        rw [ih (copied + min PAGE_SIZE (request - copied)) request
              (by simp only [PAGE_SIZE] at *; omega)
              (by simp only [PAGE_SIZE] at *; omega)
              ?_]
        · have hfirst : readRun readable (src + copied) (min PAGE_SIZE (request - copied)) =
              min PAGE_SIZE (request - copied) := by
            apply readRun_eq_len
            intro i hi
            rw [hpage i hi]
            exact hr
          have hsplit := readRun_add (min PAGE_SIZE (request - copied))
            (request - copied - min PAGE_SIZE (request - copied)) (src + copied) hfirst
          rw [show min PAGE_SIZE (request - copied) +
                (request - copied - min PAGE_SIZE (request - copied)) = request - copied by
              simp only [PAGE_SIZE] at *; omega] at hsplit
          rw [hsplit]
          rw [show src + copied + min PAGE_SIZE (request - copied) =
                src + (copied + min PAGE_SIZE (request - copied)) by omega]
          rw [show request - copied - min PAGE_SIZE (request - copied) =
                request - (copied + min PAGE_SIZE (request - copied)) by
              simp only [PAGE_SIZE] at *; omega]
          omega
        · intro h2'
          have : min PAGE_SIZE (request - copied) = PAGE_SIZE := by
            simp only [PAGE_SIZE] at *
            omega
          rw [this]
          simp only [PAGE_SIZE] at *
          omega
      · rw [Bool.not_eq_true] at hr
        have hck : chunkReadable readable (src + copied) (min PAGE_SIZE (request - copied)) = false := by
          rw [Bool.eq_false_iff]
          intro hck
          have h0 := chunkReadable_iff.mp hck 0 (by simp only [PAGE_SIZE] at *; omega)
          simp only [Nat.add_zero] at h0
          rw [h0] at hr
          exact absurd hr (by simp)
        have hval := one_chunk_neg (by simp only [PAGE_SIZE] at *; omega) hck
        have hchunk : safe_copy_one_chunk readable (src + copied)
            (min PAGE_SIZE (request - copied)) ≠ ((min PAGE_SIZE (request - copied) : Nat) : Int) := by
          rw [hval]
          simp only [PAGE_SIZE] at *
          omega
        rw [if_neg hchunk]
        have hrr : readRun readable (src + copied) (request - copied) = 0 :=
          readRun_stop hr (by omega)
        omega
    · rw [if_neg hc]
      have hz : request - copied = 0 := by omega
      simp [hz, readRun]

theorem safe_copy_eq_readRun (readable : Nat → Bool) (src request : Nat) :
    safe_copy readable src request = readRun readable src request := by
  unfold safe_copy
  by_cases hbig : safe_copy_one_chunk readable src request = (request : Int)
  · rw [if_pos hbig]
    rcases one_chunk_eq_iff.mp hbig with h0 | hck
    · subst h0
      rfl
    · exact (readRun_eq_len (chunkReadable_iff.mp hck)).symm
  · rw [if_neg hbig]
    have hreq : request ≠ 0 := by
      intro h
      subst h
      exact hbig (by simp [safe_copy_one_chunk])
    have hck : chunkReadable readable src request = false := by
      rw [Bool.eq_false_iff]
      intro h
      exact hbig (one_chunk_eq_iff.mpr (Or.inr h))
    have hval : safe_copy_one_chunk readable src request = -1 := one_chunk_neg hreq hck
    rw [hval]
    have htn : (-1 : Int).toNat = 0 := rfl
    rw [htn]
    simp only [Nat.add_zero, Nat.sub_zero]
    by_cases hr : readable (src / PAGE_SIZE) = true
    · have hmi : chunkReadable readable src (PAGE_SIZE - src % PAGE_SIZE) = true := by
        rw [chunkReadable_iff]
        intro i hi
        rw [div_page_within hi]
        exact hr
      have hchunk2 : safe_copy_one_chunk readable src (PAGE_SIZE - src % PAGE_SIZE) =
          ((PAGE_SIZE - src % PAGE_SIZE : Nat) : Int) :=
        one_chunk_eq_iff.mpr (Or.inr hmi)
      rw [if_neg (by rw [hchunk2]; intro h; exact h rfl)]
      have hlt : PAGE_SIZE - src % PAGE_SIZE < request := by
        by_contra hge
        push_neg at hge
        apply absurd hck
        rw [Bool.not_eq_false, chunkReadable_iff]
        intro i hi
        rw [div_page_within (by simp only [PAGE_SIZE] at *; omega)]
        exact hr
      rw [safe_copy_loop_eq readable src request (PAGE_SIZE - src % PAGE_SIZE) request
          (by omega) (by omega)
          (by intro h; simp only [PAGE_SIZE] at *; omega)]
      have hfirst : readRun readable src (PAGE_SIZE - src % PAGE_SIZE) =
          PAGE_SIZE - src % PAGE_SIZE := by
        apply readRun_eq_len
        intro i hi
        rw [div_page_within hi]
        exact hr
      have hsplit := readRun_add (PAGE_SIZE - src % PAGE_SIZE)
        (request - (PAGE_SIZE - src % PAGE_SIZE)) src hfirst
      rw [show PAGE_SIZE - src % PAGE_SIZE + (request - (PAGE_SIZE - src % PAGE_SIZE)) =
            request by omega] at hsplit
      rw [hsplit]
      omega
    · rw [Bool.not_eq_true] at hr
      have hck2 : chunkReadable readable src (PAGE_SIZE - src % PAGE_SIZE) = false := by
        rw [Bool.eq_false_iff]
        intro h
        have h0 := chunkReadable_iff.mp h 0 (by simp only [PAGE_SIZE]; omega)
        simp only [Nat.add_zero] at h0
        rw [h0] at hr
        exact absurd hr (by simp)
      have hval2 := one_chunk_neg (by simp only [PAGE_SIZE]; omega) hck2
      rw [if_pos (by rw [hval2]; simp only [PAGE_SIZE]; omega)]
      exact (readRun_stop hr (by omega)).symm

/-! ### Claim theorems: the sampled realloc copy -/

/-- C5 counterexample: with every source page readable and
`malloc_usable_size` reporting 4 useful bytes, the untracked non-null
sampled-realloc path copies all 100 requested bytes, not
`min(4, 100) = 4`: `shim.c` passes `request` — not
`min(old_useful_size, request)` — to `safe_copy`, and only forwards
`old_useful_size` to the trace probe. -/
theorem sampled_realloc_copy_len_cex :
    sampled_realloc false false (fun _ => true) 4 (some TRACKING_ALIGNMENT) 4096 100 =
      .moved TRACKING_ALIGNMENT 100 true ∧ (100 : Nat) ≠ min 4 100 := by
  constructor
  · decide
  · decide

/-- C5 (amended): on the untracked non-null sampled path (reset not
newly seeded), the shim obtains the new tracked allocation and passes
the full request length `n` to the fault-tolerant copy, so exactly
`min(n, r)` bytes are copied, where `r` is the contiguous run of
readable source bytes at `ptr` (computed here as `readRun`, which never
exceeds `n`); the result is independent of `malloc_usable_size`, and the
old pointer is then freed with the underlying free. -/
theorem sampled_realloc_copies_request_run (readable : Nat → Bool)
    (usable usable' : Nat) (newPtr ptr request : Nat) (hptr : ptr ≠ 0) :
    sampled_realloc false false readable usable (some newPtr) ptr request =
      .moved newPtr (readRun readable ptr request) true ∧
    readRun readable ptr request ≤ request ∧
    sampled_realloc false false readable usable (some newPtr) ptr request =
      sampled_realloc false false readable usable' (some newPtr) ptr request := by
  refine ⟨?_, readRun_le readable request ptr, rfl⟩
  simp [sampled_realloc, hptr, safe_copy_eq_readRun]

/-- Witness for C5's amended theorem: only page 0 readable, a source 6
bytes before the page boundary, a 100-byte request: 6 bytes copied. -/
theorem sampled_realloc_copies_request_run_witness :
    sampled_realloc false false (fun p => decide (p = 0)) 4 (some TRACKING_ALIGNMENT) 4090 100 =
      .moved TRACKING_ALIGNMENT (readRun (fun p => decide (p = 0)) 4090 100) true ∧
    readRun (fun p => decide (p = 0)) 4090 100 ≤ 100 ∧
    sampled_realloc false false (fun p => decide (p = 0)) 4 (some TRACKING_ALIGNMENT) 4090 100 =
      sampled_realloc false false (fun p => decide (p = 0)) 77 (some TRACKING_ALIGNMENT) 4090 100 :=
  sampled_realloc_copies_request_run (fun p => decide (p = 0)) 4 77 TRACKING_ALIGNMENT
    4090 100 (by norm_num)
